import Mathlib

/-!
The file `cmds/template_funcs.go` of sqlboiler: identifier derivation and parameter lists.

A shallow embedding of the pure helpers of `cmds/template_funcs.go`
(`makeGoName`, `makeGoVarName`, `makeDBName`, `makeGoInsertParamNames`,
`makeGoInsertParamFlags`, `makeSelectParamNames`) together with the Go standard
library functions they call (`strings.Split`, `strings.Join`, `strings.Title`,
`unicode.ToTitle`, `fmt.Sprintf` with the verbs `%s` and `%d`).

Modelling conventions.

* A Go `string` is modelled as a `GoString`, the list of its Unicode code points
  (so the model covers strings that are valid UTF-8 text).  The separator `"_"`
  is one ASCII code point, hence splitting on it is the same on code points and
  on bytes.
* The Unicode range tables consulted by `strings.Title` for code points above
  `0x7F` are not part of the repository; they are a parameter
  (`UnicodeTables`).  The ASCII fast paths of `isSeparator` and
  `unicode.ToTitle` are transcribed from the Go sources.
* `for i := 0; i < len(s); i++` loops are recursive functions on the loop index
  whose fuel is the number of iterations the Go loop performs.
-/

namespace Sqlboiler

/-! ## Strings -/

/-- A Go string, as the list of its code points. -/
abbrev GoString := List Char

/-- The part of the `unicode` package tables used by `strings.Title` on code
points above `unicode.MaxASCII`. -/
structure UnicodeTables where
  /-- The function `unicode.IsLetter`. -/
  isLetter : Char → Bool
  /-- The function `unicode.IsDigit`. -/
  isDigit : Char → Bool
  /-- The function `unicode.IsSpace`. -/
  isSpace : Char → Bool
  /-- The function `unicode.To(unicode.TitleCase, r)`. -/
  toTitleCase : Char → Char

/-- Tables under which no code point above `0x7F` is a letter, digit or space
and none has a case mapping; enough to run the functions on ASCII text. -/
def asciiTables : UnicodeTables where
  isLetter := fun _ => false
  isDigit := fun _ => false
  isSpace := fun _ => false
  toTitleCase := fun r => r

/-- The function `unicode.ToTitle`: ASCII lower-case letters are moved to upper
case (`r -= 'a' - 'A'`), other ASCII code points are returned unchanged, and
the rest is looked up in the tables. -/
def toTitle (u : UnicodeTables) (r : Char) : Char :=
  if r.toNat ≤ 0x7F then
    if 'a'.toNat ≤ r.toNat ∧ r.toNat ≤ 'z'.toNat then Char.ofNat (r.toNat - 32) else r
  else u.toTitleCase r

/-- The function `isSeparator` of package `strings`: ASCII alphanumerics and
underscore are not separators, every other ASCII code point is; above ASCII,
letters and digits are not separators and otherwise only spaces are. -/
def isSeparator (u : UnicodeTables) (r : Char) : Bool :=
  if r.toNat ≤ 0x7F then
    if '0'.toNat ≤ r.toNat ∧ r.toNat ≤ '9'.toNat then false
    else if 'a'.toNat ≤ r.toNat ∧ r.toNat ≤ 'z'.toNat then false
    else if 'A'.toNat ≤ r.toNat ∧ r.toNat ≤ 'Z'.toNat then false
    else if r = '_' then false
    else true
  else if u.isLetter r || u.isDigit r then false
  else u.isSpace r

/-- The closure passed to `strings.Map` by `strings.Title`, threaded through the
runes of the string: `prev` is the previously seen rune; a rune that follows a
separator is mapped through `unicode.ToTitle`, any other is kept. -/
def titleFrom (u : UnicodeTables) : Char → GoString → GoString
  | _, [] => []
  | prev, r :: rs => (if isSeparator u prev then toTitle u r else r) :: titleFrom u r rs

/-- The function `strings.Title`: `prev` starts as a space. -/
def Title (u : UnicodeTables) (s : GoString) : GoString :=
  titleFrom u ' ' s

/-- The function `strings.Split(s, sep)` for a one-rune separator: the pieces of
`s` between consecutive occurrences of `sep`; the empty string gives one empty
piece. -/
def Split (s : GoString) (sep : Char) : List GoString :=
  match s with
  | [] => [[]]
  | c :: cs =>
    if c = sep then [] :: Split cs sep
    else
      match Split cs sep with
      | [] => [[c]]
      | seg :: segs => (c :: seg) :: segs

/-- The function `strings.Join(elems, sep)`. -/
def Join (elems : List GoString) (sep : GoString) : GoString :=
  match elems with
  | [] => []
  | [e] => e
  | e :: es => e ++ sep ++ Join es sep

/-! ## Identifier derivation -/

/-- The loop of `makeGoName`: with `fuel` iterations left and loop index `i`,
replace `s[i]` by `"ID"` when it is `"id"` and by `strings.Title(s[i])`
otherwise. -/
def makeGoNameLoop (u : UnicodeTables) : Nat → Nat → List GoString → List GoString
  | 0, _, s => s
  | fuel + 1, i, s =>
    if i < s.length then
      if s.getD i [] = "id".toList then
        makeGoNameLoop u fuel (i + 1) (s.set i "ID".toList)
      else
        makeGoNameLoop u fuel (i + 1) (s.set i (Title u (s.getD i [])))
    else s

/-- The function `makeGoName`. -/
def makeGoName (u : UnicodeTables) (name : GoString) : GoString :=
  let s := Split name '_'
  Join (makeGoNameLoop u s.length 0 s) []

/-- The loop of `makeGoVarName`: as in `makeGoName`, except that index `0` is
skipped. -/
def makeGoVarNameLoop (u : UnicodeTables) : Nat → Nat → List GoString → List GoString
  | 0, _, s => s
  | fuel + 1, i, s =>
    if i < s.length then
      if s.getD i [] = "id".toList ∧ i > 0 then
        makeGoVarNameLoop u fuel (i + 1) (s.set i "ID".toList)
      else if i = 0 then
        makeGoVarNameLoop u fuel (i + 1) s
      else
        makeGoVarNameLoop u fuel (i + 1) (s.set i (Title u (s.getD i [])))
    else s

/-- The function `makeGoVarName`. -/
def makeGoVarName (u : UnicodeTables) (name : GoString) : GoString :=
  let s := Split name '_'
  Join (makeGoVarNameLoop u s.length 0 s) []

/-- The loop of `makeGoName` with its run-time failures made explicit: `none`
stands for an index out of range, or for the fuel running out before the loop
test `i < len(s)` fails. -/
def makeGoNameLoopChecked (u : UnicodeTables) :
    Nat → Nat → List GoString → Option (List GoString)
  | 0, i, s => if i < s.length then none else some s
  | fuel + 1, i, s =>
    if i < s.length then
      match s[i]? with
      | none => none
      | some seg =>
        if seg = "id".toList then
          makeGoNameLoopChecked u fuel (i + 1) (s.set i "ID".toList)
        else
          makeGoNameLoopChecked u fuel (i + 1) (s.set i (Title u seg))
    else some s

/-- The function `makeGoName` run with `fuel` loop iterations at most, `none`
when it fails or does not finish. -/
def makeGoNameChecked (u : UnicodeTables) (fuel : Nat) (name : GoString) : Option GoString :=
  (makeGoNameLoopChecked u fuel 0 (Split name '_')).map fun s => Join s []

/-- The loop of `makeGoVarName` with its run-time failures made explicit, as in
`makeGoNameLoopChecked`. -/
def makeGoVarNameLoopChecked (u : UnicodeTables) :
    Nat → Nat → List GoString → Option (List GoString)
  | 0, i, s => if i < s.length then none else some s
  | fuel + 1, i, s =>
    if i < s.length then
      match s[i]? with
      | none => none
      | some seg =>
        if seg = "id".toList ∧ i > 0 then
          makeGoVarNameLoopChecked u fuel (i + 1) (s.set i "ID".toList)
        else if i = 0 then
          makeGoVarNameLoopChecked u fuel (i + 1) s
        else
          makeGoVarNameLoopChecked u fuel (i + 1) (s.set i (Title u seg))
    else some s

/-- The function `makeGoVarName` run with `fuel` loop iterations at most, `none`
when it fails or does not finish. -/
def makeGoVarNameChecked (u : UnicodeTables) (fuel : Nat) (name : GoString) :
    Option GoString :=
  (makeGoVarNameLoopChecked u fuel 0 (Split name '_')).map fun s => Join s []

/-- The function `makeDBName`. -/
def makeDBName (tableName colName : GoString) : GoString :=
  tableName ++ "_".toList ++ colName

/-! ## Parameter lists -/

/-- Modelled from the spec: the declaration of `dbdrivers.DBColumn` is not among
the sources.  A column exposes its raw `Name`; its driver-specific type and
nullability metadata are never inspected by these functions and are kept as an
opaque value of type `Meta`. -/
structure DBColumn (Meta : Type) where
  /-- The raw column name. -/
  Name : GoString
  /-- The remaining column attributes. -/
  attrs : Meta

/-- The decimal numeral printed by the verb `%d` for a non-negative integer. -/
def formatDecimal (n : Nat) : GoString :=
  Nat.toDigits 10 n

/-- The call `fmt.Sprintf("%s$%d", s, n)` for a non-negative `n`. -/
def sprintfFlag (s : GoString) (n : Nat) : GoString :=
  s ++ "$".toList ++ formatDecimal n

/-- The call `fmt.Sprintf("%s%s AS %s", s, a, b)`. -/
def sprintfAs (s a b : GoString) : GoString :=
  s ++ a ++ " AS ".toList ++ b

/-- The loop of `makeGoInsertParamNames`, with `fuel` iterations left, loop
index `i` and accumulator `paramNames`; `data[i]? = none` is the exit test
`i < len(data)` failing. -/
def makeGoInsertParamNamesLoop {Meta : Type} (data : List (DBColumn Meta)) :
    Nat → Nat → GoString → GoString
  | 0, _, paramNames => paramNames
  | fuel + 1, i, paramNames =>
    match data[i]? with
    | none => paramNames
    | some col =>
      let paramNames := paramNames ++ col.Name
      let paramNames := if data.length ≠ i + 1 then paramNames ++ ", ".toList else paramNames
      makeGoInsertParamNamesLoop data fuel (i + 1) paramNames

/-- The function `makeGoInsertParamNames`. -/
def makeGoInsertParamNames {Meta : Type} (data : List (DBColumn Meta)) : GoString :=
  makeGoInsertParamNamesLoop data data.length 0 []

/-- The loop of `makeGoInsertParamFlags`; only `len(data)` is read. -/
def makeGoInsertParamFlagsLoop {Meta : Type} (data : List (DBColumn Meta)) :
    Nat → Nat → GoString → GoString
  | 0, _, paramFlags => paramFlags
  | fuel + 1, i, paramFlags =>
    if i < data.length then
      let paramFlags := sprintfFlag paramFlags (i + 1)
      let paramFlags := if data.length ≠ i + 1 then paramFlags ++ ", ".toList else paramFlags
      makeGoInsertParamFlagsLoop data fuel (i + 1) paramFlags
    else paramFlags

/-- The function `makeGoInsertParamFlags`. -/
def makeGoInsertParamFlags {Meta : Type} (data : List (DBColumn Meta)) : GoString :=
  makeGoInsertParamFlagsLoop data data.length 0 []

/-- The loop of `makeSelectParamNames`. -/
def makeSelectParamNamesLoop {Meta : Type} (tableName : GoString)
    (data : List (DBColumn Meta)) : Nat → Nat → GoString → GoString
  | 0, _, paramNames => paramNames
  | fuel + 1, i, paramNames =>
    match data[i]? with
    | none => paramNames
    | some col =>
      let paramNames := sprintfAs paramNames col.Name (makeDBName tableName col.Name)
      let paramNames := if data.length ≠ i + 1 then paramNames ++ ", ".toList else paramNames
      makeSelectParamNamesLoop tableName data fuel (i + 1) paramNames

/-- The function `makeSelectParamNames`. -/
def makeSelectParamNames {Meta : Type} (tableName : GoString)
    (data : List (DBColumn Meta)) : GoString :=
  makeSelectParamNamesLoop tableName data data.length 0 []

/-- A column with the given name and no further attributes. -/
def column (name : String) : DBColumn Unit :=
  ⟨name.toList, ()⟩

/-! ## Reference functions for the parameter lists -/

/-- The positional placeholder of the 0-based position `i`: `"$"` followed by
the decimal numeral of `i + 1`. -/
def placeholder (i : Nat) : GoString :=
  '$' :: Nat.toDigits 10 (i + 1)

/-- The select fragment of a column name: `name AS tableName_name`. -/
def selectFragment (tableName name : GoString) : GoString :=
  name ++ " AS ".toList ++ makeDBName tableName name

/-- The number of positions of `s` at which `pat` occurs. -/
def countOccurrences (pat : GoString) : GoString → Nat
  | [] => 0
  | c :: cs => (if pat.isPrefixOf (c :: cs) then 1 else 0) + countOccurrences pat cs

/-! ## Reference functions for the naming rules -/

/-- The image of a segment under `makeGoName`: `"ID"` for the segment `"id"`,
`strings.Title` of the segment otherwise. -/
def goNameSegment (u : UnicodeTables) (seg : GoString) : GoString :=
  if seg = "id".toList then "ID".toList else Title u seg

/-- A string with its first code point mapped to title case and all the
following ones unchanged. -/
def capitalizeFirst (u : UnicodeTables) : GoString → GoString
  | [] => []
  | r :: rs => toTitle u r :: rs

/-- The image of a segment as the specification words it: `"ID"` for the
segment `"id"`, otherwise the segment with its first letter upper-cased and the
rest unchanged. -/
def specGoNameSegment (u : UnicodeTables) (seg : GoString) : GoString :=
  if seg = "id".toList then "ID".toList else capitalizeFirst u seg

/-- The type-style name as the specification words it. -/
def specGoName (u : UnicodeTables) (name : GoString) : GoString :=
  ((Split name '_').map (specGoNameSegment u)).flatten

/-- The field-style name as the specification words it: the first segment is
kept, the later ones follow the rule of `specGoNameSegment`. -/
def specGoVarName (u : UnicodeTables) (name : GoString) : GoString :=
  match Split name '_' with
  | [] => []
  | seg :: segs => seg ++ (segs.map (specGoNameSegment u)).flatten

/-! ## Template resolution and rendering -/

/-- A byte slice; `none` in an `Option Bytes` stands for the `nil` slice. -/
abbrev Bytes := List UInt8

/-- Modelled from the spec: the type `template.Template` belongs to the Go
library and the registry `templates` is declared outside the sources.  A
template exposes the name returned by `t.Name()`; its parsed body is kept as an
opaque value of type `Body`.  The registry is a list of such templates. -/
structure Template (Body : Type) where
  /-- The result of `t.Name()`. -/
  Name : GoString
  /-- The parsed template. -/
  body : Body
deriving DecidableEq

/-- The loop of `getTemplate` over the registry entries still to be scanned:
the first entry `t` with `t.Name() == name + ".tpl"` is stored and the loop is
left; when the entries run out the result is still `nil`. -/
def getTemplateLoop {Body : Type} (name : GoString) :
    List (Template Body) → Option (Template Body)
  | [] => none
  | t :: ts => if t.Name = name ++ ".tpl".toList then some t else getTemplateLoop name ts

/-- The function `getTemplate`, over the registry `templates`. -/
def getTemplate {Body : Type} (templates : List (Template Body)) (name : GoString) :
    Option (Template Body) :=
  getTemplateLoop name templates

/-- Modelled from the spec: template execution and source formatting are
external collaborators.  Each is a function that returns what the Go call
returns. -/
structure Renderer (Body Data Err : Type) where
  /-- The call `t.Execute(&buf, data)`: the text written to `buf` and the error
  returned (`none` for `nil`). -/
  execute : Template Body → Data → Bytes × Option Err
  /-- The call `format.Source(src)`: the returned slice and error. -/
  formatSource : Bytes → Option Bytes × Option Err
  /-- The text of an error as the verb `%s` prints it. -/
  errorText : Err → GoString

/-- The function `processTemplate`: the pair of the returned slice and error. -/
def processTemplate {Body Data Err : Type} (env : Renderer Body Data Err)
    (t : Template Body) (data : Data) : Option Bytes × Option Err :=
  match env.execute t data with
  | (_, some err) => (none, some err)
  | (buf, none) =>
    match env.formatSource buf with
    | (_, some err) => (none, some err)
    | (output, none) => (output, none)

/-- The function `generateTemplate`.  Modelled from the spec: `errorQuit` is not
among the sources; it is a fatal failure that does not return, so a call
`errorQuit(fmt.Errorf(...))` ends the function with `Except.error` of the
message of the error. -/
def generateTemplate {Body Data Err : Type} (templates : List (Template Body))
    (env : Renderer Body Data Err) (commandName : GoString) (data : Data) :
    Except GoString (Option Bytes) :=
  match getTemplate templates commandName with
  | none =>
    Except.error ("Unable to find the template: ".toList ++ (commandName ++ ".tpl".toList))
  | some template =>
    match processTemplate env template data with
    | (_, some err) =>
      Except.error ("Unable to process the template: ".toList ++ env.errorText err)
    | (output, none) => Except.ok output

/-- The template named `name` with an empty body. -/
def template (name : String) : Template Unit :=
  ⟨name.toList, ()⟩

/-- A renderer for examples: execution writes the bytes of the template body and
fails on an empty body; formatting appends a newline (byte `10`) and fails on
text that starts with byte `0`. -/
def sampleRenderer : Renderer Bytes Unit GoString where
  execute := fun t _ =>
    if t.body = [] then ([1, 2], some "empty template".toList) else (t.body, none)
  formatSource := fun src =>
    if src.head? = some 0 then (some src, some "syntax error".toList)
    else (some (src ++ [10]), none)
  errorText := fun e => e

/-! ## Lemmas on the string library -/

theorem Join_nil_sep (elems : List GoString) : Join elems [] = elems.flatten := by
  induction elems with
  | nil => rfl
  | cons e es ih =>
    cases es with
    | nil => simp [Join]
    | cons e2 es2 => simp only [Join, List.append_nil, ih, List.flatten_cons]

theorem Join_eq_intercalate (elems : List GoString) (sep : GoString) :
    Join elems sep = sep.intercalate elems := by
  induction elems with
  | nil => rfl
  | cons e es ih =>
    cases es with
    | nil => simp [Join, List.intercalate]
    | cons e2 es2 =>
      simp only [Join, ih, List.intercalate, List.intersperse, List.flatten_cons,
        List.append_assoc]

theorem Split_ne_nil (s : GoString) (sep : Char) : Split s sep ≠ [] := by
  cases s with
  | nil => simp [Split]
  | cons c cs =>
    simp only [Split]
    split
    · simp
    · split <;> simp

theorem Split_no_sep (s : GoString) (sep : Char) : ∀ seg ∈ Split s sep, sep ∉ seg := by
  induction s with
  | nil => simp [Split]
  | cons c cs ih =>
    simp only [Split]
    split
    · intro seg hseg
      rcases List.mem_cons.1 hseg with h | h
      · simp [h]
      · exact ih seg h
    · rename_i hc
      split
      · simp [Ne.symm hc]
      · rename_i seg0 segs heq
        rw [heq] at ih
        intro seg hseg
        rcases List.mem_cons.1 hseg with h | h
        · subst h
          have := ih seg0 (List.mem_cons_self _ _)
          simp [Ne.symm hc, this]
        · exact ih seg (List.mem_cons_of_mem _ h)

theorem Join_Split (s : GoString) (sep : Char) : Join (Split s sep) [sep] = s := by
  induction s with
  | nil => simp [Split, Join]
  | cons c cs ih =>
    simp only [Split]
    split
    · rename_i hc
      have hne := Split_ne_nil cs sep
      cases hsp : Split cs sep with
      | nil => exact absurd hsp hne
      | cons a as =>
        rw [hsp] at ih
        simp [Join, ih, hc]
    · split
      · rename_i heq
        exact absurd heq (Split_ne_nil cs sep)
      · rename_i seg0 segs heq
        rw [heq] at ih
        cases segs with
        | nil => simpa [Join] using ih
        | cons a as =>
          simp only [Join, List.cons_append, List.append_assoc] at ih ⊢
          rw [ih]

theorem Split_mem_subset (s : GoString) (sep : Char) :
    ∀ seg ∈ Split s sep, ∀ r ∈ seg, r ∈ s := by
  induction s with
  | nil => simp [Split]
  | cons c cs ih =>
    simp only [Split]
    split
    · intro seg hseg r hr
      rcases List.mem_cons.1 hseg with h | h
      · subst h
        cases hr
      · exact List.mem_cons_of_mem _ (ih seg h r hr)
    · split
      · intro seg hseg r hr
        simp only [List.mem_singleton] at hseg
        subst hseg
        simp only [List.mem_singleton] at hr
        simp [hr]
      · rename_i seg0 segs heq
        rw [heq] at ih
        intro seg hseg r hr
        rcases List.mem_cons.1 hseg with h | h
        · subst h
          rcases List.mem_cons.1 hr with h2 | h2
          · simp [h2]
          · exact List.mem_cons_of_mem _ (ih seg0 (List.mem_cons_self _ _) r h2)
        · exact List.mem_cons_of_mem _ (ih seg (List.mem_cons_of_mem _ h) r hr)

/-! ## The loops of `makeGoName` and `makeGoVarName` -/

theorem getD_append_length (pre : List GoString) (x : GoString) (post : List GoString) :
    (pre ++ x :: post).getD pre.length [] = x := by
  induction pre with
  | nil => rfl
  | cons p ps ih => simpa using ih

theorem set_append_length (pre : List GoString) (x y : GoString) (post : List GoString) :
    (pre ++ x :: post).set pre.length y = (pre ++ [y]) ++ post := by
  induction pre with
  | nil => rfl
  | cons p ps ih => simp

theorem makeGoNameLoop_append (u : UnicodeTables) (fuel : Nat) :
    ∀ pre post : List GoString, post.length ≤ fuel →
      makeGoNameLoop u fuel pre.length (pre ++ post) = pre ++ post.map (goNameSegment u) := by
  induction fuel with
  | zero =>
    intro pre post h
    have : post = [] := List.length_eq_zero.1 (Nat.le_zero.1 h)
    subst this
    simp [makeGoNameLoop]
  | succ fuel ih =>
    intro pre post h
    cases post with
    | nil => simp [makeGoNameLoop]
    | cons x xs =>
      have hlt : pre.length < (pre ++ x :: xs).length := by simp
      have hxs : xs.length ≤ fuel := by simpa using h
      have hstep := ih (pre ++ [goNameSegment u x]) xs hxs
      simp only [List.length_append, List.length_singleton] at hstep
      simp only [makeGoNameLoop, hlt, if_true, getD_append_length, set_append_length]
      by_cases hid : x = "id".toList
      · simp only [hid, if_true]
        simpa [goNameSegment, hid] using hstep
      · have hg : goNameSegment u x = Title u x := if_neg hid
        rw [hg] at hstep
        rw [if_neg hid]
        simpa [hg] using hstep

theorem makeGoNameLoop_eq (u : UnicodeTables) (s : List GoString) :
    makeGoNameLoop u s.length 0 s = s.map (goNameSegment u) := by
  simpa using makeGoNameLoop_append u s.length [] s (Nat.le_refl _)

theorem makeGoVarNameLoop_append (u : UnicodeTables) (fuel : Nat) :
    ∀ pre post : List GoString, pre ≠ [] → post.length ≤ fuel →
      makeGoVarNameLoop u fuel pre.length (pre ++ post)
        = pre ++ post.map (goNameSegment u) := by
  induction fuel with
  | zero =>
    intro pre post _ h
    have : post = [] := List.length_eq_zero.1 (Nat.le_zero.1 h)
    subst this
    simp [makeGoVarNameLoop]
  | succ fuel ih =>
    intro pre post hpre h
    cases post with
    | nil => simp [makeGoVarNameLoop]
    | cons x xs =>
      have hlt : pre.length < (pre ++ x :: xs).length := by simp
      have hpos : pre.length > 0 := List.length_pos.2 hpre
      have hne : pre.length ≠ 0 := Nat.pos_iff_ne_zero.1 hpos
      have hxs : xs.length ≤ fuel := by simpa using h
      have hstep := ih (pre ++ [goNameSegment u x]) xs (by simp) hxs
      simp only [List.length_append, List.length_singleton] at hstep
      simp only [makeGoVarNameLoop, hlt, if_true, getD_append_length, set_append_length,
        hpos, and_true, hne, if_false]
      by_cases hid : x = "id".toList
      · simp only [hid, if_true]
        simpa [goNameSegment, hid] using hstep
      · have hg : goNameSegment u x = Title u x := if_neg hid
        rw [hg] at hstep
        rw [if_neg hid]
        simpa [hg] using hstep

theorem makeGoVarNameLoop_eq (u : UnicodeTables) (seg : GoString) (segs : List GoString) :
    makeGoVarNameLoop u (seg :: segs).length 0 (seg :: segs)
      = seg :: segs.map (goNameSegment u) := by
  have h := makeGoVarNameLoop_append u segs.length [seg] segs (by simp) (Nat.le_refl _)
  simp only [List.length_cons, makeGoVarNameLoop]
  simpa using h

theorem makeGoName_flatten (u : UnicodeTables) (name : GoString) :
    makeGoName u name = ((Split name '_').map (goNameSegment u)).flatten := by
  simp only [makeGoName, makeGoNameLoop_eq, Join_nil_sep]

theorem makeGoVarName_flatten (u : UnicodeTables) (name : GoString) :
    ∃ seg segs, Split name '_' = seg :: segs ∧
      makeGoVarName u name = seg ++ (segs.map (goNameSegment u)).flatten := by
  cases hsp : Split name '_' with
  | nil => exact absurd hsp (Split_ne_nil _ _)
  | cons seg segs =>
    refine ⟨seg, segs, rfl, ?_⟩
    simp only [makeGoVarName, hsp, makeGoVarNameLoop_eq, Join_nil_sep, List.flatten_cons]

/-! ## Lemmas on `strings.Title` -/

theorem titleFrom_length (u : UnicodeTables) (s : GoString) :
    ∀ prev, (titleFrom u prev s).length = s.length := by
  induction s with
  | nil => intro prev; rfl
  | cons r rs ih => intro prev; simp [titleFrom, ih]

theorem titleFrom_of_no_separator (u : UnicodeTables) (s : GoString) :
    ∀ prev, isSeparator u prev = false → (∀ r ∈ s, isSeparator u r = false) →
      titleFrom u prev s = s := by
  induction s with
  | nil => intro prev _ _; rfl
  | cons r rs ih =>
    intro prev hprev hs
    have hr : isSeparator u r = false := hs r (List.mem_cons_self _ _)
    have hrs : ∀ x ∈ rs, isSeparator u x = false :=
      fun x hx => hs x (List.mem_cons_of_mem _ hx)
    simp [titleFrom, hprev, ih r hr hrs]

theorem Title_of_no_separator (u : UnicodeTables) (s : GoString)
    (hs : ∀ r ∈ s, isSeparator u r = false) : Title u s = capitalizeFirst u s := by
  cases s with
  | nil => rfl
  | cons r rs =>
    have hr : isSeparator u r = false := hs r (List.mem_cons_self _ _)
    have hrs : ∀ x ∈ rs, isSeparator u x = false :=
      fun x hx => hs x (List.mem_cons_of_mem _ hx)
    have hsp : isSeparator u ' ' = true := rfl
    simp [Title, titleFrom, capitalizeFirst, hsp, titleFrom_of_no_separator u rs r hr hrs]

theorem goNameSegment_of_no_separator (u : UnicodeTables) (seg : GoString)
    (hs : ∀ r ∈ seg, isSeparator u r = false) :
    goNameSegment u seg = specGoNameSegment u seg := by
  unfold goNameSegment specGoNameSegment
  rw [Title_of_no_separator u seg hs]

theorem map_goNameSegment_of_no_separator (u : UnicodeTables) (segs : List GoString)
    (hs : ∀ seg ∈ segs, ∀ r ∈ seg, isSeparator u r = false) :
    segs.map (goNameSegment u) = segs.map (specGoNameSegment u) :=
  List.map_congr_left fun seg hseg => goNameSegment_of_no_separator u seg (hs seg hseg)

theorem titleFrom_getElem? (u : UnicodeTables) (s : GoString) :
    ∀ (prev : Char) (i : Nat) (r : Char), s[i]? = some r →
      (titleFrom u prev s)[i]?
        = some (if isSeparator u (if i = 0 then prev else s.getD (i - 1) ' ') = true
            then toTitle u r else r) := by
  induction s with
  | nil => intro prev i r h; simp at h
  | cons x xs ih =>
    intro prev i r h
    cases i with
    | zero =>
      simp only [List.getElem?_cons_zero, Option.some.injEq] at h
      subst h
      simp [titleFrom]
    | succ k =>
      simp only [List.getElem?_cons_succ] at h
      have hk := ih x k r h
      simp only [titleFrom, List.getElem?_cons_succ, hk]
      cases k with
      | zero => simp
      | succ m => simp

theorem Title_getElem? (u : UnicodeTables) (s : GoString) (i : Nat) (r : Char)
    (h : s[i]? = some r) :
    (Title u s)[i]?
      = some (if i = 0 ∨ isSeparator u (s.getD (i - 1) ' ') = true
          then toTitle u r else r) := by
  rw [Title, titleFrom_getElem? u s ' ' i r h]
  cases i with
  | zero =>
    have hsp : isSeparator u ' ' = true := rfl
    simp [hsp]
  | succ k => simp

theorem isAlphanum_iff (r : Char) : r.isAlphanum = true ↔
    (48 ≤ r.toNat ∧ r.toNat ≤ 57) ∨ (97 ≤ r.toNat ∧ r.toNat ≤ 122) ∨
      (65 ≤ r.toNat ∧ r.toNat ≤ 90) := by
  simp only [Char.isAlphanum, Char.isAlpha, Char.isUpper, Char.isLower, Char.isDigit,
    Bool.or_eq_true, Bool.and_eq_true, decide_eq_true_eq]
  have e1 : ∀ n : UInt32, (r.val ≥ n) = (n.toNat ≤ r.toNat) := fun n => rfl
  have e2 : ∀ n : UInt32, (r.val ≤ n) = (r.toNat ≤ n.toNat) := fun n => rfl
  simp only [e1, e2]
  have h48 : (48 : UInt32).toNat = 48 := rfl
  have h57 : (57 : UInt32).toNat = 57 := rfl
  have h97 : (97 : UInt32).toNat = 97 := rfl
  have h122 : (122 : UInt32).toNat = 122 := rfl
  have h65 : (65 : UInt32).toNat = 65 := rfl
  have h90 : (90 : UInt32).toNat = 90 := rfl
  omega

theorem isSeparator_iff (u : UnicodeTables) (r : Char) :
    isSeparator u r = true ↔
      (r.toNat ≤ 0x7F ∧ r.isAlphanum = false ∧ r ≠ '_') ∨
      (0x7F < r.toNat ∧ u.isLetter r = false ∧ u.isDigit r = false ∧ u.isSpace r = true) := by
  have hal := isAlphanum_iff r
  have hnot : r.isAlphanum = false ↔ ¬ r.isAlphanum = true := by simp
  rw [hnot, hal]
  unfold isSeparator
  have hd : '0'.toNat = 48 ∧ '9'.toNat = 57 ∧ 'a'.toNat = 97 ∧ 'z'.toNat = 122 ∧
      'A'.toNat = 65 ∧ 'Z'.toNat = 90 := ⟨rfl, rfl, rfl, rfl, rfl, rfl⟩
  obtain ⟨h0, h9, ha, hz, hA, hZ⟩ := hd
  rw [h0, h9, ha, hz, hA, hZ]
  by_cases hascii : r.toNat ≤ 0x7F
  · rw [if_pos hascii]
    have hn : ¬ 0x7F < r.toNat := Nat.not_lt.2 hascii
    by_cases hdig : 48 ≤ r.toNat ∧ r.toNat ≤ 57
    · rw [if_pos hdig]
      refine ⟨fun h => Bool.noConfusion h, ?_⟩
      rintro (⟨_, hna, _⟩ | ⟨h, _⟩)
      · exact absurd (Or.inl hdig) hna
      · exact absurd h hn
    · rw [if_neg hdig]
      by_cases hlow : 97 ≤ r.toNat ∧ r.toNat ≤ 122
      · rw [if_pos hlow]
        refine ⟨fun h => Bool.noConfusion h, ?_⟩
        rintro (⟨_, hna, _⟩ | ⟨h, _⟩)
        · exact absurd (Or.inr (Or.inl hlow)) hna
        · exact absurd h hn
      · rw [if_neg hlow]
        by_cases hup : 65 ≤ r.toNat ∧ r.toNat ≤ 90
        · rw [if_pos hup]
          refine ⟨fun h => Bool.noConfusion h, ?_⟩
          rintro (⟨_, hna, _⟩ | ⟨h, _⟩)
          · exact absurd (Or.inr (Or.inr hup)) hna
          · exact absurd h hn
        · rw [if_neg hup]
          by_cases hus : r = '_'
          · rw [if_pos hus]
            refine ⟨fun h => Bool.noConfusion h, ?_⟩
            rintro (⟨_, _, hne⟩ | ⟨h, _⟩)
            · exact absurd hus hne
            · exact absurd h hn
          · rw [if_neg hus]
            simp only [true_iff]
            exact Or.inl ⟨hascii, fun h => by rcases h with h | h | h <;> contradiction, hus⟩
  · rw [if_neg hascii]
    have hn : 0x7F < r.toNat := Nat.lt_of_not_le hascii
    cases hl : u.isLetter r <;> cases hdg : u.isDigit r <;> cases hs : u.isSpace r <;>
      simp [hascii, hn]

/-! ## Lemmas on characters -/

theorem ofNat_sub_ne_underscore (n : Nat) (h1 : 97 ≤ n) (h2 : n ≤ 122) :
    Char.ofNat (n - 32) ≠ '_' := by
  interval_cases n <;> decide

theorem toTitle_ne_underscore (u : UnicodeTables)
    (hu : ∀ r : Char, 0x7F < r.toNat → u.toTitleCase r ≠ '_') (r : Char) (hr : r ≠ '_') :
    toTitle u r ≠ '_' := by
  unfold toTitle
  split
  · split
    · rename_i h
      exact ofNat_sub_ne_underscore r.toNat h.1 h.2
    · exact hr
  · rename_i h
    exact hu r (Nat.lt_of_not_le h)

theorem titleFrom_no_underscore (u : UnicodeTables)
    (hu : ∀ r : Char, 0x7F < r.toNat → u.toTitleCase r ≠ '_') (s : GoString) :
    ∀ prev, '_' ∉ s → '_' ∉ titleFrom u prev s := by
  induction s with
  | nil => intro prev _; simp [titleFrom]
  | cons r rs ih =>
    intro prev hs
    have hr : r ≠ '_' := fun h => hs (by simp [h])
    have hrs : '_' ∉ rs := fun h => hs (List.mem_cons_of_mem _ h)
    simp only [titleFrom, List.mem_cons, not_or]
    refine ⟨?_, ih r hrs⟩
    split
    · exact Ne.symm (toTitle_ne_underscore u hu r hr)
    · exact Ne.symm hr

theorem goNameSegment_no_underscore (u : UnicodeTables)
    (hu : ∀ r : Char, 0x7F < r.toNat → u.toTitleCase r ≠ '_') (seg : GoString)
    (hs : '_' ∉ seg) : '_' ∉ goNameSegment u seg := by
  unfold goNameSegment
  split
  · decide
  · exact titleFrom_no_underscore u hu seg ' ' hs

theorem isLower_bounds (c : Char) (hc : c.isLower = true) :
    97 ≤ c.toNat ∧ c.toNat ≤ 122 := by
  simp only [Char.isLower, Bool.and_eq_true, decide_eq_true_eq] at hc
  exact ⟨hc.1, hc.2⟩

theorem toTitle_of_isLower (u : UnicodeTables) (c : Char) (hc : c.isLower = true) :
    toTitle u c = c.toUpper := by
  obtain ⟨h1, h2⟩ := isLower_bounds c hc
  have h3 : c.toNat ≤ 0x7F := by omega
  have h4 : 'a'.toNat ≤ c.toNat ∧ c.toNat ≤ 'z'.toNat := ⟨h1, h2⟩
  have h5 : c.toNat ≥ 97 ∧ c.toNat ≤ 122 := ⟨h1, h2⟩
  simp only [toTitle, h3, if_true, h4, Char.toUpper, h5, and_self]

theorem toTitle_ascii (u : UnicodeTables) (r : Char) (hascii : r.toNat ≤ 0x7F) :
    toTitle u r = r.toUpper := by
  by_cases hlow : 'a'.toNat ≤ r.toNat ∧ r.toNat ≤ 'z'.toNat
  · have h5 : r.toNat ≥ 97 ∧ r.toNat ≤ 122 := hlow
    rw [toTitle, if_pos hascii, if_pos hlow, Char.toUpper]
    simp only [h5, and_self, if_true]
  · have h5 : ¬ (r.toNat ≥ 97 ∧ r.toNat ≤ 122) := hlow
    rw [toTitle, if_pos hascii, if_neg hlow, Char.toUpper]
    simp only [h5, if_false]

theorem isSeparator_of_isLower (u : UnicodeTables) (c : Char) (hc : c.isLower = true) :
    isSeparator u c = false := by
  obtain ⟨h1, h2⟩ := isLower_bounds c hc
  have h3 : c.toNat ≤ 0x7F := by omega
  have h4 : 'a'.toNat ≤ c.toNat ∧ c.toNat ≤ 'z'.toNat := ⟨h1, h2⟩
  unfold isSeparator
  rw [if_pos h3]
  split
  · rfl
  · rfl

theorem toLower_ofNat_sub (n : Nat) (h1 : 97 ≤ n) (h2 : n ≤ 122) :
    (Char.ofNat n).toUpper.toLower = Char.ofNat n := by
  interval_cases n <;> decide

theorem toLower_toUpper_of_isLower (c : Char) (hc : c.isLower = true) :
    c.toUpper.toLower = c := by
  obtain ⟨h1, h2⟩ := isLower_bounds c hc
  have h := toLower_ofNat_sub c.toNat h1 h2
  rwa [Char.ofNat_toNat] at h

/-! ## The loops of the parameter lists -/

theorem Join_cons (e : GoString) (es : List GoString) (sep : GoString) :
    Join (e :: es) sep = e ++ (if es = [] then [] else sep ++ Join es sep) := by
  cases es with
  | nil => simp [Join]
  | cons e2 es2 => simp [Join]

theorem getElem?_append_length {α : Type} (pre : List α) (x : α) (post : List α) :
    (pre ++ x :: post)[pre.length]? = some x := by
  rw [List.getElem?_append_right (Nat.le_refl _)]
  simp

theorem length_ne_succ_iff {α : Type} (pre : List α) (x : α) (post : List α) :
    (pre ++ x :: post).length ≠ pre.length + 1 ↔ post ≠ [] := by
  cases post with
  | nil => simp
  | cons y ys => simp

theorem makeGoInsertParamNamesLoop_append {Meta : Type} (fuel : Nat) :
    ∀ (pre post : List (DBColumn Meta)) (acc : GoString), post.length ≤ fuel →
      makeGoInsertParamNamesLoop (pre ++ post) fuel pre.length acc
        = acc ++ Join (post.map fun col => col.Name) ", ".toList := by
  induction fuel with
  | zero =>
    intro pre post acc h
    have : post = [] := List.length_eq_zero.1 (Nat.le_zero.1 h)
    subst this
    simp [makeGoInsertParamNamesLoop, Join]
  | succ fuel ih =>
    intro pre post acc h
    cases post with
    | nil => simp [makeGoInsertParamNamesLoop, Join]
    | cons x xs =>
      have hxs : xs.length ≤ fuel := by simpa using h
      have hdata : pre ++ x :: xs = (pre ++ [x]) ++ xs := by simp
      have hlen : (pre ++ [x]).length = pre.length + 1 := by simp
      simp only [makeGoInsertParamNamesLoop, getElem?_append_length, length_ne_succ_iff,
        List.map_cons, Join_cons, List.map_eq_nil_iff]
      rw [hdata, ← hlen, ih (pre ++ [x]) xs _ hxs]
      by_cases hnil : xs = []
      · simp [hnil, Join]
      · simp [hnil]

theorem makeGoInsertParamNames_eq_Join {Meta : Type} (data : List (DBColumn Meta)) :
    makeGoInsertParamNames data = Join (data.map fun col => col.Name) ", ".toList := by
  have h := makeGoInsertParamNamesLoop_append data.length [] data [] (Nat.le_refl _)
  simpa [makeGoInsertParamNames] using h

theorem makeSelectParamNamesLoop_append {Meta : Type} (tableName : GoString) (fuel : Nat) :
    ∀ (pre post : List (DBColumn Meta)) (acc : GoString), post.length ≤ fuel →
      makeSelectParamNamesLoop tableName (pre ++ post) fuel pre.length acc
        = acc ++ Join (post.map fun col => selectFragment tableName col.Name)
            ", ".toList := by
  induction fuel with
  | zero =>
    intro pre post acc h
    have : post = [] := List.length_eq_zero.1 (Nat.le_zero.1 h)
    subst this
    simp [makeSelectParamNamesLoop, Join]
  | succ fuel ih =>
    intro pre post acc h
    cases post with
    | nil => simp [makeSelectParamNamesLoop, Join]
    | cons x xs =>
      have hxs : xs.length ≤ fuel := by simpa using h
      have hdata : pre ++ x :: xs = (pre ++ [x]) ++ xs := by simp
      have hlen : (pre ++ [x]).length = pre.length + 1 := by simp
      simp only [makeSelectParamNamesLoop, getElem?_append_length, length_ne_succ_iff,
        List.map_cons, Join_cons, List.map_eq_nil_iff]
      rw [hdata, ← hlen, ih (pre ++ [x]) xs _ hxs]
      by_cases hnil : xs = []
      · simp [hnil, Join, sprintfAs, selectFragment]
      · simp [hnil, sprintfAs, selectFragment]

theorem makeSelectParamNames_eq_Join {Meta : Type} (tableName : GoString)
    (data : List (DBColumn Meta)) :
    makeSelectParamNames tableName data
      = Join (data.map fun col => selectFragment tableName col.Name) ", ".toList := by
  have h := makeSelectParamNamesLoop_append tableName data.length [] data [] (Nat.le_refl _)
  simpa [makeSelectParamNames] using h

theorem makeGoInsertParamFlagsLoop_range {Meta : Type} (data : List (DBColumn Meta))
    (fuel : Nat) :
    ∀ (i : Nat) (acc : GoString), data.length - i ≤ fuel →
      makeGoInsertParamFlagsLoop data fuel i acc
        = acc ++ Join ((List.range' i (data.length - i)).map placeholder) ", ".toList := by
  induction fuel with
  | zero =>
    intro i acc h
    have h0 : data.length - i = 0 := Nat.le_zero.1 h
    simp [makeGoInsertParamFlagsLoop, h0, Join]
  | succ fuel ih =>
    intro i acc h
    by_cases hi : i < data.length
    · have hk : data.length - i = (data.length - (i + 1)) + 1 := by omega
      have hfuel : data.length - (i + 1) ≤ fuel := by omega
      simp only [makeGoInsertParamFlagsLoop, hi, if_true]
      rw [ih (i + 1) _ hfuel, hk, List.range'_succ, List.map_cons, Join_cons]
      by_cases hlast : data.length = i + 1
      · simp [hlast, Join, sprintfFlag, formatDecimal, placeholder]
      · have hpos : data.length - (i + 1) ≠ 0 := by omega
        simp [hlast, hpos, sprintfFlag, formatDecimal, placeholder]
    · have h0 : data.length - i = 0 := by omega
      simp [makeGoInsertParamFlagsLoop, hi, h0, Join]

theorem makeGoInsertParamFlags_eq_Join {Meta : Type} (data : List (DBColumn Meta)) :
    makeGoInsertParamFlags data
      = Join ((List.range data.length).map placeholder) ", ".toList := by
  have h := makeGoInsertParamFlagsLoop_range data data.length 0 [] (by simp)
  rw [List.range_eq_range']
  simpa [makeGoInsertParamFlags] using h

/-! ## Separators in the placeholder list -/

theorem digitChar_isDigit (m : Nat) (h : m < 10) : (Nat.digitChar m).isDigit = true := by
  interval_cases m <;> decide

theorem toDigitsCore_isDigit (fuel : Nat) :
    ∀ (n : Nat) (acc : List Char), (∀ c ∈ acc, c.isDigit = true) →
      ∀ c ∈ Nat.toDigitsCore 10 fuel n acc, c.isDigit = true := by
  induction fuel with
  | zero => intro n acc hacc; simpa [Nat.toDigitsCore] using hacc
  | succ fuel ih =>
    intro n acc hacc
    have hd : (Nat.digitChar (n % 10)).isDigit = true :=
      digitChar_isDigit _ (Nat.mod_lt _ (by decide))
    have hacc2 : ∀ c ∈ Nat.digitChar (n % 10) :: acc, c.isDigit = true := by
      intro c hc
      rcases List.mem_cons.1 hc with h | h
      · rw [h]; exact hd
      · exact hacc c h
    simp only [Nat.toDigitsCore]
    split
    · exact hacc2
    · exact ih _ _ hacc2

theorem toDigits_isDigit (n : Nat) : ∀ c ∈ Nat.toDigits 10 n, c.isDigit = true :=
  toDigitsCore_isDigit _ _ _ (by simp)

theorem placeholder_chars (i : Nat) : ∀ c ∈ placeholder i, c ≠ ',' ∧ c ≠ ' ' := by
  intro c hc
  rcases List.mem_cons.1 hc with h | h
  · rw [h]; decide
  · have hd := toDigits_isDigit (i + 1) c h
    constructor
    · intro hcomma
      rw [hcomma] at hd
      exact absurd hd (by decide)
    · intro hspace
      rw [hspace] at hd
      exact absurd hd (by decide)

theorem countOccurrences_append_of_no_comma (x r : GoString) (hx : ∀ c ∈ x, c ≠ ',') :
    countOccurrences ", ".toList (x ++ r) = countOccurrences ", ".toList r := by
  induction x with
  | nil => rfl
  | cons c cs ih =>
    have hc : c ≠ ',' := hx c (List.mem_cons_self _ _)
    have hcs : ∀ d ∈ cs, d ≠ ',' := fun d hd => hx d (List.mem_cons_of_mem _ hd)
    have hne : (',' == c) = false := by simpa using Ne.symm hc
    rw [List.cons_append, countOccurrences, ih hcs]
    simp [String.toList, List.isPrefixOf, hne]

theorem countOccurrences_sep_append (r : GoString) :
    countOccurrences ", ".toList (", ".toList ++ r) = 1 + countOccurrences ", ".toList r := by
  simp [String.toList, countOccurrences, List.isPrefixOf]

theorem countOccurrences_Join (items : List GoString)
    (hitems : ∀ x ∈ items, ∀ c ∈ x, c ≠ ',') :
    countOccurrences ", ".toList (Join items ", ".toList) = items.length - 1 := by
  induction items with
  | nil => rfl
  | cons e es ih =>
    have he : ∀ c ∈ e, c ≠ ',' := hitems e (List.mem_cons_self _ _)
    have hes : ∀ x ∈ es, ∀ c ∈ x, c ≠ ',' :=
      fun x hx => hitems x (List.mem_cons_of_mem _ hx)
    rw [Join_cons, countOccurrences_append_of_no_comma _ _ he]
    cases es with
    | nil => rfl
    | cons e2 es2 =>
      rw [if_neg (List.cons_ne_nil _ _), countOccurrences_sep_append, ih hes]
      simp
      omega

theorem Join_last (items : List GoString) (hne : items ≠ [])
    (hitems : ∀ x ∈ items, x ≠ [] ∧ ∀ c ∈ x, c ≠ ' ') :
    ∃ front c, Join items ", ".toList = front ++ [c] ∧ c ≠ ' ' := by
  induction items with
  | nil => exact absurd rfl hne
  | cons e es ih =>
    obtain ⟨hene, hec⟩ := hitems e (List.mem_cons_self _ _)
    rw [Join_cons]
    cases es with
    | nil =>
      refine ⟨e.dropLast, e.getLast hene, ?_, hec _ (List.getLast_mem hene)⟩
      simp [List.dropLast_append_getLast]
    | cons e2 es2 =>
      obtain ⟨front, c, hj, hc⟩ :=
        ih (List.cons_ne_nil _ _) (fun x hx => hitems x (List.mem_cons_of_mem _ hx))
      refine ⟨e ++ ", ".toList ++ front, c, ?_, hc⟩
      rw [if_neg (List.cons_ne_nil _ _), hj]
      simp

theorem not_sep_suffix_of_last (front : GoString) (c : Char) (hc : c ≠ ' ') :
    ¬ ", ".toList <:+ front ++ [c] := by
  rintro ⟨t, ht⟩
  have h := congrArg List.getLast? ht
  have hs : ", ".toList = [','] ++ [' '] := rfl
  rw [hs, ← List.append_assoc, List.getLast?_concat, List.getLast?_concat] at h
  exact hc (Option.some.inj h).symm

/-! ## Type-style and field-style names -/

/-- C1, as stated, fails: `strings.Title` title-cases the first letter of every
word of a segment, not only the first letter of the segment.  On `"foo bar"`
the code returns `"Foo Bar"` while the rule "first letter upper-cased, the rest
unchanged" gives `"Foo bar"`. -/
theorem makeGoName_titles_every_word :
    makeGoName asciiTables "foo bar".toList = "Foo Bar".toList ∧
    specGoName asciiTables "foo bar".toList = "Foo bar".toList ∧
    makeGoName asciiTables "foo bar".toList ≠ specGoName asciiTables "foo bar".toList := by
  decide

/-- C1, amended: `makeGoName name` is the concatenation, in order and with
nothing in between, of the images of the segments of `name` split on `"_"`,
where the segment `"id"` maps to `"ID"` and every other segment maps to its
`strings.Title`: the segment with its first character, and every character
that directly follows a separator character, replaced by its title case
(`unicode.ToTitle`, the upper-case letter for an ASCII character) and all other
characters unchanged.  A separator character is an ASCII character other than
a letter, a digit or the underscore, or a character above ASCII that is
neither a letter nor a digit and is a Unicode space; so `"€"` is no separator
and `makeGoName "foo€bar" = "Foo€bar"`.  For a segment without separator
characters the image is the segment with its first character title-cased and
the rest unchanged; and `makeGoName "column_name_id" = "ColumnNameID"`. -/
theorem makeGoName_segments (u : UnicodeTables) (name : GoString) :
    makeGoName u name = ((Split name '_').map (goNameSegment u)).flatten ∧
    (∀ seg ∈ Split name '_', (∀ r ∈ seg, isSeparator u r = false) →
      goNameSegment u seg = specGoNameSegment u seg) ∧
    ((∀ r ∈ name, isSeparator u r = false) → makeGoName u name = specGoName u name) ∧
    makeGoName u "column_name_id".toList = "ColumnNameID".toList ∧
    (∀ seg : GoString, (Title u seg).length = seg.length ∧
      ∀ (i : Nat) (r : Char), seg[i]? = some r →
        (Title u seg)[i]?
          = some (if i = 0 ∨ isSeparator u (seg.getD (i - 1) ' ') = true
              then toTitle u r else r)) ∧
    (∀ r : Char, isSeparator u r = true ↔
      (r.toNat ≤ 0x7F ∧ r.isAlphanum = false ∧ r ≠ '_') ∨
      (0x7F < r.toNat ∧ u.isLetter r = false ∧ u.isDigit r = false ∧
        u.isSpace r = true)) ∧
    (∀ r : Char, r.toNat ≤ 0x7F → toTitle u r = r.toUpper) ∧
    makeGoName asciiTables "foo€bar".toList = "Foo€bar".toList := by
  refine ⟨makeGoName_flatten u name, ?_, ?_, rfl, ?_, isSeparator_iff u,
    toTitle_ascii u, by decide⟩
  · intro seg _ hs
    exact goNameSegment_of_no_separator u seg hs
  · intro hs
    rw [makeGoName_flatten, specGoName, map_goNameSegment_of_no_separator]
    intro seg hseg r hr
    exact hs r (Split_mem_subset name '_' seg hseg r hr)
  · intro seg
    exact ⟨titleFrom_length u seg ' ', Title_getElem? u seg⟩

/-- The amended C1 at `"column_name_id"`, whose characters are all letters or
underscores. -/
theorem makeGoName_segments_witness :
    (∀ r ∈ "column_name_id".toList, isSeparator asciiTables r = false) ∧
    makeGoName asciiTables "column_name_id".toList
      = specGoName asciiTables "column_name_id".toList :=
  ⟨by decide,
   (makeGoName_segments asciiTables "column_name_id".toList).2.2.1 (by decide)⟩

/-- C2, as stated, fails for the same reason as C1: a later segment with more
than one word has each of its words title-cased.  On `"x_foo bar"` the code
returns `"xFoo Bar"` while the stated rule gives `"xFoo bar"`. -/
theorem makeGoVarName_titles_every_word :
    makeGoVarName asciiTables "x_foo bar".toList = "xFoo Bar".toList ∧
    specGoVarName asciiTables "x_foo bar".toList = "xFoo bar".toList ∧
    makeGoVarName asciiTables "x_foo bar".toList
      ≠ specGoVarName asciiTables "x_foo bar".toList := by
  decide

/-- C2, amended: `makeGoVarName name` is the first segment of `name` (split on
`"_"`) exactly as it is, followed by the images of the later segments, where a
later segment `"id"` maps to `"ID"` and every other later segment maps to its
`strings.Title`; when the later segments contain no separator characters, that
is the segment with its first character title-cased and the rest unchanged;
`makeGoVarName "id" = "id"`, `makeGoVarName "var_name_id" = "varNameID"` and
`makeGoVarName "name" = "name"`. -/
theorem makeGoVarName_segments (u : UnicodeTables) (name : GoString) :
    (∃ seg segs, Split name '_' = seg :: segs ∧
      makeGoVarName u name = seg ++ (segs.map (goNameSegment u)).flatten) ∧
    ((∀ seg ∈ (Split name '_').tail, ∀ r ∈ seg, isSeparator u r = false) →
      makeGoVarName u name = specGoVarName u name) ∧
    makeGoVarName u "id".toList = "id".toList ∧
    makeGoVarName u "var_name_id".toList = "varNameID".toList ∧
    makeGoVarName u "name".toList = "name".toList := by
  refine ⟨makeGoVarName_flatten u name, ?_, rfl, rfl, rfl⟩
  intro hs
  obtain ⟨seg, segs, hsplit, heq⟩ := makeGoVarName_flatten u name
  rw [hsplit] at hs
  rw [heq, specGoVarName, hsplit]
  simp only
  rw [map_goNameSegment_of_no_separator u segs hs]

/-- The amended C2 at `"var_name_id"`. -/
theorem makeGoVarName_segments_witness :
    (∀ seg ∈ (Split "var_name_id".toList '_').tail, ∀ r ∈ seg,
      isSeparator asciiTables r = false) ∧
    makeGoVarName asciiTables "var_name_id".toList
      = specGoVarName asciiTables "var_name_id".toList :=
  ⟨by decide,
   (makeGoVarName_segments asciiTables "var_name_id".toList).2.1 (by decide)⟩

/-- C3: the result of `makeGoName` contains no `"_"` character, for every name
(in particular for every non-empty one), provided the title-case table maps no
code point above ASCII to the underscore (true of the Unicode tables, where the
underscore is no case variant of any code point). -/
theorem makeGoName_no_underscore (u : UnicodeTables)
    (hu : ∀ r : Char, 0x7F < r.toNat → u.toTitleCase r ≠ '_') (name : GoString) :
    '_' ∉ makeGoName u name := by
  rw [makeGoName_flatten]
  intro hmem
  obtain ⟨img, himg, hin⟩ := List.mem_flatten.1 hmem
  obtain ⟨seg, hseg, rfl⟩ := List.mem_map.1 himg
  exact goNameSegment_no_underscore u hu seg (Split_no_sep name '_' seg hseg) hin

/-- C3 at `"column_name_id"` with the ASCII tables. -/
theorem makeGoName_no_underscore_witness :
    (∀ r : Char, 0x7F < r.toNat → asciiTables.toTitleCase r ≠ '_') ∧
    '_' ∉ makeGoName asciiTables "column_name_id".toList :=
  ⟨fun r h e => absurd (e ▸ h : 0x7F < '_'.toNat) (by decide),
   makeGoName_no_underscore asciiTables
     (fun r h e => absurd (e ▸ h : 0x7F < '_'.toNat) (by decide)) "column_name_id".toList⟩

/-- C4, as stated, fails: `makeGoVarName` leaves the first segment untouched,
it does not lower-case it, while `makeGoName` title-cases every word of it.  On
`"Foo bar"` (one segment, not `"id"`) `makeGoVarName` returns `"Foo bar"`, whose
first character is not lower case, and `makeGoName` returns `"Foo Bar"`, which
differs from it after the first character. -/
theorem makeGoVarName_first_segment_untouched :
    Split "Foo bar".toList '_' = ["Foo bar".toList] ∧
    "Foo bar".toList ≠ "id".toList ∧
    makeGoVarName asciiTables "Foo bar".toList = "Foo bar".toList ∧
    makeGoName asciiTables "Foo bar".toList = "Foo Bar".toList ∧
    (makeGoVarName asciiTables "Foo bar".toList).head?.map Char.isLower = some false ∧
    (makeGoVarName asciiTables "Foo bar".toList).tail
      ≠ (makeGoName asciiTables "Foo bar".toList).tail := by
  decide

/-- C4, amended: for every name whose first `"_"`-separated segment is not
`"id"`, starts with a lower-case ASCII letter `c` and contains no separator
character after it, `makeGoVarName name` and `makeGoName name` have the same
length and agree from the second character on, the first character of
`makeGoVarName name` is the lower-case letter `c`, and the first character of
`makeGoName name` is its upper-case form (whose lower-case form is `c`). -/
theorem makeGoVarName_eq_makeGoName_up_to_first (u : UnicodeTables) (name : GoString)
    (c : Char) (rest : GoString) (segs : List GoString)
    (hsplit : Split name '_' = (c :: rest) :: segs)
    (hid : c :: rest ≠ "id".toList)
    (hc : c.isLower = true)
    (hrest : ∀ r ∈ rest, isSeparator u r = false) :
    (makeGoVarName u name).length = (makeGoName u name).length ∧
    (makeGoVarName u name).tail = (makeGoName u name).tail ∧
    (makeGoVarName u name).head? = some c ∧
    (makeGoName u name).head? = some c.toUpper ∧
    c.toUpper.toLower = c := by
  obtain ⟨seg, segs2, hsplit2, hvar⟩ := makeGoVarName_flatten u name
  rw [hsplit] at hsplit2
  obtain ⟨hseg, hsegs⟩ := List.cons.inj hsplit2
  subst hseg
  subst hsegs
  have hall : ∀ r ∈ c :: rest, isSeparator u r = false := by
    intro r hr
    rcases List.mem_cons.1 hr with h | h
    · rw [h]
      exact isSeparator_of_isLower u c hc
    · exact hrest r h
  have himg : goNameSegment u (c :: rest) = c.toUpper :: rest := by
    rw [goNameSegment, if_neg hid, Title_of_no_separator u _ hall, capitalizeFirst,
      toTitle_of_isLower u c hc]
  have hgo : makeGoName u name
      = (c.toUpper :: rest) ++ (segs.map (goNameSegment u)).flatten := by
    rw [makeGoName_flatten, hsplit, List.map_cons, List.flatten_cons, himg]
  rw [hvar, hgo]
  refine ⟨by simp, by simp, by simp, by simp, toLower_toUpper_of_isLower c hc⟩

/-- The amended C4 at `"var_name_id"`: the two results are `"varNameID"` and
`"VarNameID"`. -/
theorem makeGoVarName_eq_makeGoName_up_to_first_witness :
    (makeGoVarName asciiTables "var_name_id".toList).length
      = (makeGoName asciiTables "var_name_id".toList).length ∧
    (makeGoVarName asciiTables "var_name_id".toList).tail
      = (makeGoName asciiTables "var_name_id".toList).tail ∧
    (makeGoVarName asciiTables "var_name_id".toList).head? = some 'v' ∧
    (makeGoName asciiTables "var_name_id".toList).head? = some 'v'.toUpper ∧
    'v'.toUpper.toLower = 'v' :=
  makeGoVarName_eq_makeGoName_up_to_first asciiTables "var_name_id".toList 'v' "ar".toList
    ["name".toList, "id".toList] (by decide) (by decide) (by decide) (by decide)

/-! ## Persisted names -/

/-- C5: `makeDBName tableName colName` is `tableName`, then a single `"_"`, then
`colName`, both arguments unchanged: the result starts with `tableName`, has
`"_"` right after it and `colName` as the remainder. -/
theorem makeDBName_eq (tableName colName : GoString) :
    makeDBName tableName colName = tableName ++ '_' :: colName ∧
    (makeDBName tableName colName).take tableName.length = tableName ∧
    (makeDBName tableName colName)[tableName.length]? = some '_' ∧
    (makeDBName tableName colName).drop (tableName.length + 1) = colName ∧
    (makeDBName tableName colName).length = tableName.length + 1 + colName.length := by
  have h : makeDBName tableName colName = tableName ++ '_' :: colName := by
    simp [makeDBName]
  refine ⟨h, ?_, ?_, ?_, ?_⟩
  · rw [h]; simp
  · rw [h, List.getElem?_append_right (Nat.le_refl _)]; simp
  · rw [h]
    rw [List.drop_append_eq_append_drop]
    simp
  · rw [h]; simp; omega

/-! ## Insert and select parameter lists -/

/-- C6: for every column list, `makeGoInsertParamNames` is the list of the
columns' `Name` fields, in input order, none dropped, reordered or
deduplicated, joined with `", "` between consecutive elements and nothing after
the last; it is `""` for the empty list and `a, b, c` for the names
`[a, b, c]`. -/
theorem makeGoInsertParamNames_eq {Meta : Type} (data : List (DBColumn Meta)) :
    makeGoInsertParamNames data = ", ".toList.intercalate (data.map fun col => col.Name) ∧
    makeGoInsertParamNames ([] : List (DBColumn Meta)) = [] ∧
    (∀ (a b c : GoString) (x y z : Meta),
      makeGoInsertParamNames [⟨a, x⟩, ⟨b, y⟩, ⟨c, z⟩]
        = a ++ ", ".toList ++ b ++ ", ".toList ++ c) ∧
    makeGoInsertParamNames [column "a", column "b", column "c", column "a"]
      = "a, b, c, a".toList := by
  refine ⟨?_, rfl, ?_, by decide⟩
  · rw [makeGoInsertParamNames_eq_Join, Join_eq_intercalate]
  · intro a b c x y z
    rw [makeGoInsertParamNames_eq_Join]
    simp [Join]

/-- C7: for every column list of length `n`, `makeGoInsertParamFlags` is the
list `"$1", "$2", ..., "$n"` (`"$"` followed by the decimal numeral of the
1-based position) joined with `", "`; it is `""` for `n = 0` and
`"$1, $2, $3"` for `n = 3`. -/
theorem makeGoInsertParamFlags_eq {Meta : Type} (data : List (DBColumn Meta)) :
    makeGoInsertParamFlags data
      = ", ".toList.intercalate
          ((List.range data.length).map fun i => '$' :: Nat.toDigits 10 (i + 1)) ∧
    (data.length = 0 → makeGoInsertParamFlags data = []) ∧
    (data.length = 3 → makeGoInsertParamFlags data = "$1, $2, $3".toList) := by
  have h : makeGoInsertParamFlags data
      = ", ".toList.intercalate
          ((List.range data.length).map fun i => '$' :: Nat.toDigits 10 (i + 1)) := by
    rw [makeGoInsertParamFlags_eq_Join, Join_eq_intercalate]
    rfl
  refine ⟨h, ?_, ?_⟩
  · intro h0
    rw [h, h0]
    rfl
  · intro h3
    rw [h, h3]
    decide

/-- C7 at a list of three columns. -/
theorem makeGoInsertParamFlags_eq_witness :
    [column "a", column "b", column "c"].length = 3 ∧
    makeGoInsertParamFlags [column "a", column "b", column "c"] = "$1, $2, $3".toList :=
  ⟨rfl, (makeGoInsertParamFlags_eq [column "a", column "b", column "c"]).2.2 rfl⟩

/-- C8: for every table name and column list, `makeSelectParamNames` is, in
input order, the fragments `Name + " AS " + makeDBName(tableName, Name)` of the
columns joined with `", "` and nothing after the last; for table `"users"` and
columns named `id`, `email` it is `"id AS users_id, email AS users_email"`, and
for the empty list it is `""`. -/
theorem makeSelectParamNames_eq {Meta : Type} (tableName : GoString)
    (data : List (DBColumn Meta)) :
    makeSelectParamNames tableName data
      = ", ".toList.intercalate
          (data.map fun col => col.Name ++ " AS ".toList ++ makeDBName tableName col.Name) ∧
    makeSelectParamNames tableName ([] : List (DBColumn Meta)) = [] ∧
    makeSelectParamNames "users".toList [column "id", column "email"]
      = "id AS users_id, email AS users_email".toList := by
  refine ⟨?_, rfl, by decide⟩
  rw [makeSelectParamNames_eq_Join, Join_eq_intercalate]
  rfl

/-- C9: `makeGoInsertParamFlags` is purely positional: two column lists of the
same length, whatever the names and other attributes of their columns (even of
different attribute types), give the same string. -/
theorem makeGoInsertParamFlags_positional {Meta Meta2 : Type}
    (data : List (DBColumn Meta)) (data2 : List (DBColumn Meta2))
    (hlen : data.length = data2.length) :
    makeGoInsertParamFlags data = makeGoInsertParamFlags data2 := by
  rw [makeGoInsertParamFlags_eq_Join, makeGoInsertParamFlags_eq_Join, hlen]

/-- C9 at two lists of two columns with different names and attributes. -/
theorem makeGoInsertParamFlags_positional_witness :
    makeGoInsertParamFlags [column "id", column "email"]
      = makeGoInsertParamFlags
          [(⟨"x".toList, true⟩ : DBColumn Bool), ⟨"id".toList, false⟩] :=
  makeGoInsertParamFlags_positional [column "id", column "email"]
    [(⟨"x".toList, true⟩ : DBColumn Bool), ⟨"id".toList, false⟩] rfl

/-- C10: for every column list of length `n ≥ 1` the separator `", "` occurs
exactly `n - 1` times in `makeGoInsertParamFlags` and the result neither begins
nor ends with `", "`; for `n = 1` there is no separator and for `n = 0` the
result is the empty string. -/
theorem makeGoInsertParamFlags_separators {Meta : Type} (data : List (DBColumn Meta)) :
    (1 ≤ data.length →
      countOccurrences ", ".toList (makeGoInsertParamFlags data) = data.length - 1 ∧
      ¬ ", ".toList <+: makeGoInsertParamFlags data ∧
      ¬ ", ".toList <:+ makeGoInsertParamFlags data) ∧
    (data.length = 1 → countOccurrences ", ".toList (makeGoInsertParamFlags data) = 0) ∧
    (data.length = 0 → makeGoInsertParamFlags data = []) := by
  have hcount : countOccurrences ", ".toList (makeGoInsertParamFlags data)
      = data.length - 1 := by
    rw [makeGoInsertParamFlags_eq_Join, countOccurrences_Join]
    · simp
    · intro x hx c hc
      obtain ⟨i, _, rfl⟩ := List.mem_map.1 hx
      exact (placeholder_chars i c hc).1
  refine ⟨fun hpos => ⟨hcount, ?_, ?_⟩, fun h1 => by rw [hcount, h1], fun h0 => ?_⟩
  · obtain ⟨k, hk⟩ : ∃ k, data.length = k + 1 := ⟨data.length - 1, by omega⟩
    rw [makeGoInsertParamFlags_eq_Join, hk, List.range_succ_eq_map, List.map_cons, Join_cons]
    intro hpre
    rw [placeholder, List.cons_append] at hpre
    have hcons : ',' :: [' '] <+: '$' :: _ := hpre
    exact absurd (List.cons_prefix_cons.1 hcons).1 (by decide)
  · have hne : (List.range data.length).map placeholder ≠ [] := by
      intro h
      have hl := congrArg List.length h
      rw [List.length_map, List.length_range, List.length_nil] at hl
      omega
    obtain ⟨front, c, hj, hc⟩ := Join_last _ hne (by
      intro x hx
      obtain ⟨i, _, rfl⟩ := List.mem_map.1 hx
      exact ⟨List.cons_ne_nil _ _, fun c hc => (placeholder_chars i c hc).2⟩)
    rw [makeGoInsertParamFlags_eq_Join, hj]
    exact not_sep_suffix_of_last front c hc
  · rw [makeGoInsertParamFlags_eq_Join, h0]
    rfl

/-- C10 at a list of three columns, where the result is `"$1, $2, $3"`. -/
theorem makeGoInsertParamFlags_separators_witness :
    countOccurrences ", ".toList
        (makeGoInsertParamFlags [column "a", column "b", column "c"]) = 3 - 1 ∧
    ¬ ", ".toList <+: makeGoInsertParamFlags [column "a", column "b", column "c"] ∧
    ¬ ", ".toList <:+ makeGoInsertParamFlags [column "a", column "b", column "c"] :=
  (makeGoInsertParamFlags_separators [column "a", column "b", column "c"]).1 (by decide)

/-! ## Empty segments and the shared tail of the two names -/

theorem goNameSegment_nil (u : UnicodeTables) : goNameSegment u [] = [] := rfl

theorem flatten_map_goNameSegment_filter (u : UnicodeTables) (segs : List GoString) :
    (segs.map (goNameSegment u)).flatten
      = ((segs.filter fun seg => !seg.isEmpty).map (goNameSegment u)).flatten := by
  induction segs with
  | nil => rfl
  | cons seg segs ih =>
    cases seg with
    | nil => simpa [goNameSegment_nil] using ih
    | cons c cs => simp [ih]

/-- C15: empty segments contribute nothing to `makeGoName`: the result is the
concatenation of the images of the non-empty `"_"`-separated segments only, so
leading, trailing and doubled underscores do not change it;
`makeGoName "foo__bar" = makeGoName "_foo_bar_" = makeGoName "foo_bar" =
"FooBar"`. -/
theorem makeGoName_skips_empty_segments (u : UnicodeTables) (name : GoString) :
    makeGoName u name
      = (((Split name '_').filter fun seg => !seg.isEmpty).map (goNameSegment u)).flatten ∧
    makeGoName u "foo__bar".toList = "FooBar".toList ∧
    makeGoName u "_foo_bar_".toList = "FooBar".toList ∧
    makeGoName u "foo_bar".toList = "FooBar".toList := by
  refine ⟨?_, rfl, rfl, rfl⟩
  rw [makeGoName_flatten, flatten_map_goNameSegment_filter]

/-- C17: `makeGoName` and `makeGoVarName` treat the segments after the first
alike: with `s0` the first `"_"`-separated segment of `name` there is one string
`rest`, the concatenation of the images of the later segments, such that
`makeGoVarName name = s0 + rest` and `makeGoName name = g(s0) + rest`, where
`g("id") = "ID"` and `g(s) = strings.Title(s)` otherwise. -/
theorem makeGoName_makeGoVarName_share_rest (u : UnicodeTables) (name : GoString) :
    ∃ s0 segs rest, Split name '_' = s0 :: segs ∧
      rest = (segs.map fun s => if s = "id".toList then "ID".toList else Title u s).flatten ∧
      makeGoVarName u name = s0 ++ rest ∧
      makeGoName u name = (if s0 = "id".toList then "ID".toList else Title u s0) ++ rest := by
  obtain ⟨s0, segs, hsplit, hvar⟩ := makeGoVarName_flatten u name
  refine ⟨s0, segs, _, hsplit, rfl, hvar, ?_⟩
  rw [makeGoName_flatten, hsplit]
  rfl

/-! ## Totality of the two names -/

theorem makeGoNameLoopChecked_append (u : UnicodeTables) (fuel : Nat) :
    ∀ pre post : List GoString, post.length ≤ fuel →
      makeGoNameLoopChecked u fuel pre.length (pre ++ post)
        = some (pre ++ post.map (goNameSegment u)) := by
  induction fuel with
  | zero =>
    intro pre post h
    have : post = [] := List.length_eq_zero.1 (Nat.le_zero.1 h)
    subst this
    simp [makeGoNameLoopChecked]
  | succ fuel ih =>
    intro pre post h
    cases post with
    | nil => simp [makeGoNameLoopChecked]
    | cons x xs =>
      have hlt : pre.length < (pre ++ x :: xs).length := by simp
      have hxs : xs.length ≤ fuel := by simpa using h
      have hstep := ih (pre ++ [goNameSegment u x]) xs hxs
      simp only [List.length_append, List.length_singleton] at hstep
      simp only [makeGoNameLoopChecked, hlt, if_true, getElem?_append_length,
        set_append_length]
      by_cases hid : x = "id".toList
      · have hg : goNameSegment u x = "ID".toList := if_pos hid
        rw [hg] at hstep
        rw [if_pos hid]
        simpa [hg] using hstep
      · have hg : goNameSegment u x = Title u x := if_neg hid
        rw [hg] at hstep
        rw [if_neg hid]
        simpa [hg] using hstep

theorem makeGoVarNameLoopChecked_append (u : UnicodeTables) (fuel : Nat) :
    ∀ pre post : List GoString, pre ≠ [] → post.length ≤ fuel →
      makeGoVarNameLoopChecked u fuel pre.length (pre ++ post)
        = some (pre ++ post.map (goNameSegment u)) := by
  induction fuel with
  | zero =>
    intro pre post _ h
    have : post = [] := List.length_eq_zero.1 (Nat.le_zero.1 h)
    subst this
    simp [makeGoVarNameLoopChecked]
  | succ fuel ih =>
    intro pre post hpre h
    cases post with
    | nil => simp [makeGoVarNameLoopChecked]
    | cons x xs =>
      have hlt : pre.length < (pre ++ x :: xs).length := by simp
      have hpos : pre.length > 0 := List.length_pos.2 hpre
      have hne : pre.length ≠ 0 := Nat.pos_iff_ne_zero.1 hpos
      have hxs : xs.length ≤ fuel := by simpa using h
      have hstep := ih (pre ++ [goNameSegment u x]) xs (by simp) hxs
      simp only [List.length_append, List.length_singleton] at hstep
      simp only [makeGoVarNameLoopChecked, hlt, if_true, getElem?_append_length,
        set_append_length, hpos, and_true, hne, if_false]
      by_cases hid : x = "id".toList
      · have hg : goNameSegment u x = "ID".toList := if_pos hid
        rw [hg] at hstep
        rw [if_pos hid]
        simpa [hg] using hstep
      · have hg : goNameSegment u x = Title u x := if_neg hid
        rw [hg] at hstep
        rw [if_neg hid]
        simpa [hg] using hstep

theorem makeGoNameChecked_eq (u : UnicodeTables) (fuel : Nat) (name : GoString)
    (hfuel : (Split name '_').length ≤ fuel) :
    makeGoNameChecked u fuel name = some (makeGoName u name) := by
  have h := makeGoNameLoopChecked_append u fuel [] (Split name '_') hfuel
  simp only [List.length_nil, List.nil_append] at h
  rw [makeGoNameChecked, h, makeGoName, makeGoNameLoop_eq]
  rfl

theorem makeGoVarNameChecked_eq (u : UnicodeTables) (fuel : Nat) (name : GoString)
    (hfuel : (Split name '_').length ≤ fuel) :
    makeGoVarNameChecked u fuel name = some (makeGoVarName u name) := by
  cases hsp : Split name '_' with
  | nil => exact absurd hsp (Split_ne_nil _ _)
  | cons seg segs =>
    rw [hsp] at hfuel
    obtain ⟨fuel2, rfl⟩ : ∃ k, fuel = k + 1 :=
      ⟨fuel - 1, by simp only [List.length_cons] at hfuel; omega⟩
    have hsegs : segs.length ≤ fuel2 := by simpa using hfuel
    have h := makeGoVarNameLoopChecked_append u fuel2 [seg] segs (by simp) hsegs
    simp only [List.length_singleton, List.singleton_append] at h
    have hvar : makeGoVarName u name = Join (seg :: segs.map (goNameSegment u)) [] := by
      rw [makeGoVarName, hsp, makeGoVarNameLoop_eq]
    rw [makeGoVarNameChecked, hsp, hvar]
    simp [makeGoVarNameLoopChecked, h]

/-- C16: `makeGoName` and `makeGoVarName` are total and never fail: run with
explicit run-time failures (index out of range, loop not finished), each
returns a result, the value of the function, for every name as soon as the
fuel covers the number of segments; on the empty string both return the empty
string. -/
theorem makeGoName_makeGoVarName_total (u : UnicodeTables) (name : GoString) (fuel : Nat)
    (hfuel : (Split name '_').length ≤ fuel) :
    makeGoNameChecked u fuel name = some (makeGoName u name) ∧
    makeGoVarNameChecked u fuel name = some (makeGoVarName u name) ∧
    makeGoName u [] = [] ∧
    makeGoVarName u [] = [] :=
  ⟨makeGoNameChecked_eq u fuel name hfuel, makeGoVarNameChecked_eq u fuel name hfuel,
   rfl, rfl⟩

/-- C16 at `"var_name_id"`, three segments, with fuel `3`. -/
theorem makeGoName_makeGoVarName_total_witness :
    makeGoNameChecked asciiTables 3 "var_name_id".toList
      = some (makeGoName asciiTables "var_name_id".toList) ∧
    makeGoVarNameChecked asciiTables 3 "var_name_id".toList
      = some (makeGoVarName asciiTables "var_name_id".toList) ∧
    makeGoName asciiTables [] = [] ∧
    makeGoVarName asciiTables [] = [] :=
  makeGoName_makeGoVarName_total asciiTables "var_name_id".toList 3 (by decide)

/-! ## Idempotence of `makeGoName` -/

theorem Split_of_not_mem (s : GoString) (sep : Char) (h : sep ∉ s) : Split s sep = [s] := by
  induction s with
  | nil => rfl
  | cons c cs ih =>
    have hc : c ≠ sep := fun e => h (by simp [e])
    have hcs : sep ∉ cs := fun e => h (List.mem_cons_of_mem _ e)
    simp [Split, hc, ih hcs]

theorem titleFrom_append (u : UnicodeTables) (a b : GoString) :
    ∀ prev, titleFrom u prev (a ++ b)
      = titleFrom u prev a ++ titleFrom u (a.getLast?.getD prev) b := by
  induction a with
  | nil => intro prev; rfl
  | cons r rs ih =>
    intro prev
    rw [List.cons_append, titleFrom, titleFrom, ih r, List.cons_append]
    cases rs with
    | nil => rfl
    | cons r2 rs2 =>
      rw [List.getLast?_cons_cons, List.getLast?_eq_getLast _ (List.cons_ne_nil _ _)]
      rfl

theorem toTitle_ofNat_sub (u : UnicodeTables) (n : Nat) (h1 : 97 ≤ n) (h2 : n ≤ 122) :
    toTitle u (Char.ofNat (n - 32)) = Char.ofNat (n - 32) ∧
    isSeparator u (Char.ofNat (n - 32)) = false := by
  interval_cases n <;> exact ⟨rfl, rfl⟩

theorem toTitle_idempotent (u : UnicodeTables)
    (hidem : ∀ r : Char, 0x7F < r.toNat → toTitle u (u.toTitleCase r) = u.toTitleCase r)
    (r : Char) : toTitle u (toTitle u r) = toTitle u r := by
  by_cases hascii : r.toNat ≤ 0x7F
  · by_cases hlow : 'a'.toNat ≤ r.toNat ∧ r.toNat ≤ 'z'.toNat
    · have h : toTitle u r = Char.ofNat (r.toNat - 32) := by
        rw [toTitle, if_pos hascii, if_pos hlow]
      rw [h]
      exact (toTitle_ofNat_sub u r.toNat hlow.1 hlow.2).1
    · have h : toTitle u r = r := by
        rw [toTitle, if_pos hascii, if_neg hlow]
      rw [h, h]
  · have h : toTitle u r = u.toTitleCase r := by
      rw [toTitle, if_neg hascii]
    rw [h]
    exact hidem r (Nat.lt_of_not_le hascii)

theorem isSeparator_toTitle (u : UnicodeTables)
    (hsep : ∀ r : Char, 0x7F < r.toNat → isSeparator u r = false →
      isSeparator u (u.toTitleCase r) = false)
    (r : Char) (hr : isSeparator u r = false) : isSeparator u (toTitle u r) = false := by
  by_cases hascii : r.toNat ≤ 0x7F
  · by_cases hlow : 'a'.toNat ≤ r.toNat ∧ r.toNat ≤ 'z'.toNat
    · have h : toTitle u r = Char.ofNat (r.toNat - 32) := by
        rw [toTitle, if_pos hascii, if_pos hlow]
      rw [h]
      exact (toTitle_ofNat_sub u r.toNat hlow.1 hlow.2).2
    · have h : toTitle u r = r := by
        rw [toTitle, if_pos hascii, if_neg hlow]
      rw [h]
      exact hr
  · have h : toTitle u r = u.toTitleCase r := by
      rw [toTitle, if_neg hascii]
    rw [h]
    exact hsep r (Nat.lt_of_not_le hascii) hr

theorem titleFrom_titleFrom (u : UnicodeTables)
    (hidem : ∀ r : Char, 0x7F < r.toNat → toTitle u (u.toTitleCase r) = u.toTitleCase r)
    (hsep : ∀ r : Char, 0x7F < r.toNat → isSeparator u r = false →
      isSeparator u (u.toTitleCase r) = false)
    (s : GoString) :
    ∀ p q, (isSeparator u q = true → isSeparator u p = true) →
      titleFrom u q (titleFrom u p s) = titleFrom u p s := by
  induction s with
  | nil => intro p q _; rfl
  | cons r rs ih =>
    intro p q hpq
    rw [titleFrom, titleFrom]
    by_cases hp : isSeparator u p = true
    · have hrest : isSeparator u (toTitle u r) = true → isSeparator u r = true := by
        intro ht
        by_contra hn
        have hf := isSeparator_toTitle u hsep r (by simpa using hn)
        rw [hf] at ht
        cases ht
      rw [if_pos hp, ih r (toTitle u r) hrest]
      by_cases hq : isSeparator u q = true
      · rw [if_pos hq, toTitle_idempotent u hidem]
      · rw [if_neg hq]
    · have hq : ¬ isSeparator u q = true := fun h => hp (hpq h)
      rw [if_neg hp, if_neg hq, ih r r (fun h => h)]

theorem titleFrom_goNameSegment (u : UnicodeTables)
    (hidem : ∀ r : Char, 0x7F < r.toNat → toTitle u (u.toTitleCase r) = u.toTitleCase r)
    (hsep : ∀ r : Char, 0x7F < r.toNat → isSeparator u r = false →
      isSeparator u (u.toTitleCase r) = false)
    (seg : GoString) (q : Char) :
    titleFrom u q (goNameSegment u seg) = goNameSegment u seg := by
  unfold goNameSegment
  split
  · have hI : toTitle u 'I' = 'I' := rfl
    have hsI : isSeparator u 'I' = false := rfl
    simp [String.toList, titleFrom, hI, hsI]
  · exact titleFrom_titleFrom u hidem hsep seg ' ' q (fun _ => rfl)

theorem titleFrom_flatten (u : UnicodeTables) (imgs : List GoString)
    (himgs : ∀ m ∈ imgs, ∀ q, titleFrom u q m = m) :
    ∀ q, titleFrom u q imgs.flatten = imgs.flatten := by
  induction imgs with
  | nil => intro q; rfl
  | cons m ms ih =>
    intro q
    rw [List.flatten_cons, titleFrom_append, himgs m (List.mem_cons_self _ _) q,
      ih (fun x hx => himgs x (List.mem_cons_of_mem _ hx))]

theorem Title_makeGoName (u : UnicodeTables)
    (hidem : ∀ r : Char, 0x7F < r.toNat → toTitle u (u.toTitleCase r) = u.toTitleCase r)
    (hsep : ∀ r : Char, 0x7F < r.toNat → isSeparator u r = false →
      isSeparator u (u.toTitleCase r) = false)
    (name : GoString) : Title u (makeGoName u name) = makeGoName u name := by
  rw [makeGoName_flatten]
  refine titleFrom_flatten u _ ?_ ' '
  intro m hm q
  obtain ⟨seg, _, rfl⟩ := List.mem_map.1 hm
  exact titleFrom_goNameSegment u hidem hsep seg q

theorem ne_id_of_Title_eq (u : UnicodeTables) (s : GoString) (h : Title u s = s) :
    s ≠ "id".toList := by
  intro hid
  rw [hid] at h
  exact absurd h (by
    have hi : toTitle u 'i' = 'I' := rfl
    have hsp : isSeparator u ' ' = true := rfl
    simp [String.toList, Title, titleFrom, hi, hsp])

/-- C18: `makeGoName` is idempotent, `makeGoName (makeGoName name) =
makeGoName name` for every name, under three properties of the title-case table
above ASCII that hold of the Unicode tables: a title-cased code point is its
own title case, title-casing does not turn a non-separator into a separator,
and no code point is title-cased to the underscore. -/
theorem makeGoName_idempotent (u : UnicodeTables)
    (hidem : ∀ r : Char, 0x7F < r.toNat → toTitle u (u.toTitleCase r) = u.toTitleCase r)
    (hsep : ∀ r : Char, 0x7F < r.toNat → isSeparator u r = false →
      isSeparator u (u.toTitleCase r) = false)
    (hu : ∀ r : Char, 0x7F < r.toNat → u.toTitleCase r ≠ '_')
    (name : GoString) :
    makeGoName u (makeGoName u name) = makeGoName u name := by
  have htitle := Title_makeGoName u hidem hsep name
  have hnot : '_' ∉ makeGoName u name := by
    rw [makeGoName_flatten]
    intro hmem
    obtain ⟨img, himg, hin⟩ := List.mem_flatten.1 hmem
    obtain ⟨seg, hseg, rfl⟩ := List.mem_map.1 himg
    exact goNameSegment_no_underscore u hu seg (Split_no_sep name '_' seg hseg) hin
  have hid := ne_id_of_Title_eq u _ htitle
  generalize makeGoName u name = r at htitle hnot hid
  rw [makeGoName_flatten, Split_of_not_mem r '_' hnot]
  simp only [List.map_cons, List.map_nil, List.flatten_cons, List.flatten_nil,
    List.append_nil]
  rw [goNameSegment, if_neg hid, htitle]

/-- C18 at `"column_name_id"` with the ASCII tables: `"ColumnNameID"` is mapped
to itself. -/
theorem makeGoName_idempotent_witness :
    makeGoName asciiTables (makeGoName asciiTables "column_name_id".toList)
      = makeGoName asciiTables "column_name_id".toList :=
  makeGoName_idempotent asciiTables
    (fun r h => by
      have hn : ¬ r.toNat ≤ 0x7F := Nat.not_le_of_lt h
      show toTitle asciiTables r = r
      rw [toTitle, if_neg hn]
      rfl)
    (fun _ _ h => h)
    (fun r h e => absurd (e ▸ h : 0x7F < '_'.toNat) (by decide))
    "column_name_id".toList

/-! ## Template resolution -/

theorem getTemplate_eq_find? {Body : Type} (templates : List (Template Body))
    (name : GoString) :
    getTemplate templates name
      = templates.find? fun t => decide (t.Name = name ++ ".tpl".toList) := by
  unfold getTemplate
  induction templates with
  | nil => rfl
  | cons t ts ih =>
    by_cases h : t.Name = name ++ ".tpl".toList
    · rw [getTemplateLoop, if_pos h, List.find?_cons_of_pos _ (by simpa using h)]
    · rw [getTemplateLoop, if_neg h, List.find?_cons_of_neg _ (by simpa using h), ih]

/-- C11: over a registry that is a list of named templates, `getTemplate name`
returns no template exactly when no registry entry is named `name + ".tpl"`;
otherwise it returns the first entry, in registry order, with that name. -/
theorem getTemplate_first_match {Body : Type} (templates : List (Template Body))
    (name : GoString) :
    (getTemplate templates name = none ↔
      ∀ t ∈ templates, t.Name ≠ name ++ ".tpl".toList) ∧
    (∀ t, getTemplate templates name = some t ↔
      t.Name = name ++ ".tpl".toList ∧
      ∃ before after, templates = before ++ t :: after ∧
        ∀ b ∈ before, b.Name ≠ name ++ ".tpl".toList) := by
  rw [getTemplate_eq_find?]
  constructor
  · simp
  · intro t
    rw [List.find?_eq_some]
    simp

/-- C12: template resolution is monotone in the registry.  When `getTemplate`
succeeds for `name` on a registry `old`, and `new` is `old` with the entries
`added` inserted anywhere (so `old` is a subsequence of `new` and `new` holds
the entries of `old` and `added`), `getTemplate` succeeds for `name` on `new`;
and when no added entry is named `name + ".tpl"` it returns the same
template. -/
theorem getTemplate_monotone {Body : Type} (old new added : List (Template Body))
    (name : GoString) (hsub : List.Sublist old new) (hperm : List.Perm new (old ++ added))
    (hfound : (getTemplate old name).isSome = true) :
    (getTemplate new name).isSome = true ∧
    ((∀ t ∈ added, t.Name ≠ name ++ ".tpl".toList) →
      getTemplate new name = getTemplate old name) := by
  rw [getTemplate_eq_find?] at hfound ⊢
  rw [getTemplate_eq_find?]
  constructor
  · rw [List.find?_isSome] at hfound ⊢
    obtain ⟨t, ht, hp⟩ := hfound
    exact ⟨t, hsub.subset ht, hp⟩
  · intro hadded
    have hfilter : added.filter (fun t => decide (t.Name = name ++ ".tpl".toList)) = [] := by
      rw [List.filter_eq_nil_iff]
      intro t ht
      simpa using hadded t ht
    have hlen := (hperm.filter fun t => decide (t.Name = name ++ ".tpl".toList)).length_eq
    rw [List.filter_append, hfilter, List.append_nil] at hlen
    have heq := (hsub.filter fun t => decide (t.Name = name ++ ".tpl".toList)).eq_of_length
      hlen.symm
    rw [← List.filter_head?, ← List.filter_head?, heq]

/-- C12 at the registry `[a.tpl, b.tpl]` enlarged by `c.tpl` in front and
`d.tpl` in the middle, for the name `b`. -/
theorem getTemplate_monotone_witness :
    (getTemplate [template "c.tpl", template "a.tpl", template "d.tpl", template "b.tpl"]
        "b".toList).isSome = true ∧
    getTemplate [template "c.tpl", template "a.tpl", template "d.tpl", template "b.tpl"]
        "b".toList
      = getTemplate [template "a.tpl", template "b.tpl"] "b".toList :=
  have h := getTemplate_monotone [template "a.tpl", template "b.tpl"]
    [template "c.tpl", template "a.tpl", template "d.tpl", template "b.tpl"]
    [template "c.tpl", template "d.tpl"] "b".toList (by decide) (by decide) (by decide)
  ⟨h.1, h.2 (by decide)⟩

/-! ## Rendering and generation -/

/-- C13: with execution and formatting as functions returning the Go results,
`processTemplate` returns an error exactly when execution fails or formatting
of the executed text fails, and then the returned bytes are `nil` (no partial
output); otherwise the error is `nil` and the returned bytes are the
formatter's output on the whole executed text. -/
theorem processTemplate_result {Body Data Err : Type} (env : Renderer Body Data Err)
    (t : Template Body) (data : Data) :
    ((processTemplate env t data).2 ≠ none ↔
      (env.execute t data).2 ≠ none ∨
      (env.formatSource (env.execute t data).1).2 ≠ none) ∧
    ((processTemplate env t data).2 ≠ none → (processTemplate env t data).1 = none) ∧
    ((processTemplate env t data).2 = none →
      (env.execute t data).2 = none ∧
      (env.formatSource (env.execute t data).1).2 = none ∧
      (processTemplate env t data).1 = (env.formatSource (env.execute t data).1).1) := by
  unfold processTemplate
  rcases hexec : env.execute t data with ⟨buf, _ | e⟩
  · rcases hfmt : env.formatSource buf with ⟨output, _ | e2⟩
    · simp [hfmt]
    · simp [hfmt]
  · simp

/-- C13 on the sample renderer: a failing execution that had written two bytes
returns `nil` bytes, and a successful run returns the formatter's output. -/
theorem processTemplate_result_witness :
    (processTemplate sampleRenderer (⟨"a.tpl".toList, []⟩ : Template Bytes) ()).1 = none ∧
    ((sampleRenderer.execute (⟨"b.tpl".toList, [7]⟩ : Template Bytes) ()).2 = none ∧
      (sampleRenderer.formatSource
        (sampleRenderer.execute (⟨"b.tpl".toList, [7]⟩ : Template Bytes) ()).1).2 = none ∧
      (processTemplate sampleRenderer (⟨"b.tpl".toList, [7]⟩ : Template Bytes) ()).1
        = (sampleRenderer.formatSource
            (sampleRenderer.execute (⟨"b.tpl".toList, [7]⟩ : Template Bytes) ()).1).1) :=
  ⟨(processTemplate_result sampleRenderer ⟨"a.tpl".toList, []⟩ ()).2.1 (by decide),
   (processTemplate_result sampleRenderer ⟨"b.tpl".toList, [7]⟩ ()).2.2 (by decide)⟩

/-- C14: with `errorQuit` a fatal failure that does not return,
`generateTemplate` returns bytes exactly when `getTemplate commandName` finds a
template and `processTemplate` on it succeeds, and the bytes are those of
`processTemplate`; when no template is found it fails with the message
`"Unable to find the template: " + commandName + ".tpl"` whatever the renderer
(which is not consulted); when `processTemplate` fails it fails as well. -/
theorem generateTemplate_result {Body Data Err : Type} (templates : List (Template Body))
    (env : Renderer Body Data Err) (commandName : GoString) (data : Data) :
    (∀ output, generateTemplate templates env commandName data = Except.ok output ↔
      ∃ t, getTemplate templates commandName = some t ∧
        processTemplate env t data = (output, none)) ∧
    (getTemplate templates commandName = none →
      ∀ env2 : Renderer Body Data Err,
        generateTemplate templates env2 commandName data
          = Except.error
              ("Unable to find the template: ".toList ++ commandName ++ ".tpl".toList)) ∧
    (∀ t err, getTemplate templates commandName = some t →
      (processTemplate env t data).2 = some err →
      generateTemplate templates env commandName data
        = Except.error ("Unable to process the template: ".toList ++ env.errorText err)) := by
  refine ⟨?_, ?_, ?_⟩
  · intro output
    simp only [generateTemplate]
    cases hget : getTemplate templates commandName with
    | none => simp
    | some t =>
      rcases hproc : processTemplate env t data with ⟨out, _ | e⟩
      · simp [hproc, eq_comm]
      · simp [hproc]
  · intro hnone env2
    unfold generateTemplate
    rw [hnone]
    simp
  · intro t err hget herr
    simp only [generateTemplate, hget]
    rcases hproc : processTemplate env t data with ⟨out, _ | e⟩
    · rw [hproc] at herr
      cases herr
    · rw [hproc] at herr
      simp only [Option.some.injEq] at herr
      simp [hproc, herr]

/-- C14 on the sample renderer: an unknown command fails with the template
message, and a template whose execution fails makes generation fail. -/
theorem generateTemplate_result_witness :
    generateTemplate [(⟨"a.tpl".toList, []⟩ : Template Bytes)] sampleRenderer
        "insert".toList ()
      = Except.error "Unable to find the template: insert.tpl".toList ∧
    generateTemplate [(⟨"a.tpl".toList, []⟩ : Template Bytes)] sampleRenderer "a".toList ()
      = Except.error "Unable to process the template: empty template".toList :=
  ⟨(generateTemplate_result [(⟨"a.tpl".toList, []⟩ : Template Bytes)] sampleRenderer
      "insert".toList ()).2.1 (by decide) sampleRenderer,
   (generateTemplate_result [(⟨"a.tpl".toList, []⟩ : Template Bytes)] sampleRenderer
      "a".toList ()).2.2 ⟨"a.tpl".toList, []⟩ "empty template".toList (by decide) (by decide)⟩

/-! ## Distinct aliases -/

theorem zipWith_map_self {α β γ : Type} (f : α → β → γ) (g : α → β) (l : List α) :
    List.zipWith f l (l.map g) = l.map fun x => f x (g x) := by
  induction l with
  | nil => rfl
  | cons x xs ih => simp [ih]

/-- C19: for a fixed table name `makeDBName` is injective in the column name,
so the aliases that `makeSelectParamNames` emits (the `makeDBName` of each
column name, after `" AS "`) are pairwise distinct for columns with pairwise
distinct names. -/
theorem makeDBName_injective {Meta : Type} (tableName : GoString)
    (data : List (DBColumn Meta)) :
    (∀ c1 c2 : GoString, makeDBName tableName c1 = makeDBName tableName c2 → c1 = c2) ∧
    makeSelectParamNames tableName data
      = ", ".toList.intercalate
          (List.zipWith (fun col dbName => col.Name ++ " AS ".toList ++ dbName) data
            (data.map fun col => makeDBName tableName col.Name)) ∧
    ((data.map fun col => col.Name).Nodup →
      (data.map fun col => makeDBName tableName col.Name).Nodup) := by
  have hinj : ∀ c1 c2 : GoString,
      makeDBName tableName c1 = makeDBName tableName c2 → c1 = c2 := by
    intro c1 c2 h
    exact List.append_cancel_left h
  refine ⟨hinj, ?_, ?_⟩
  · rw [makeSelectParamNames_eq_Join, Join_eq_intercalate, zipWith_map_self]
    rfl
  · intro hnodup
    have hmap : data.map (fun col => makeDBName tableName col.Name)
        = (data.map fun col => col.Name).map (makeDBName tableName) := by
      rw [List.map_map]
      rfl
    rw [hmap]
    exact hnodup.map (fun c1 c2 h => hinj c1 c2 h)

/-- C19 at table `"users"` and the columns `id`, `email`: the aliases
`users_id` and `users_email` are distinct. -/
theorem makeDBName_injective_witness :
    ([column "id", column "email"].map fun col => col.Name).Nodup ∧
    ([column "id", column "email"].map fun col =>
      makeDBName "users".toList col.Name).Nodup :=
  ⟨by decide,
   (makeDBName_injective "users".toList [column "id", column "email"]).2.2 (by decide)⟩

end Sqlboiler
